import Mathlib

/-!
Verification of the Agion governance SDK (Python sources) against its
natural-language specification.

Shallow embedding conventions:
* Pure algorithmic code is translated to Lean functions, keeping the source
  names where possible (`PolicyEngine.evaluate`, `checkPermission`, ...).
* Wall-clock timestamps (`datetime.now`, `time.time`) become explicit integer
  parameters threaded through each call.
* Python exceptions raised to the caller become `Except`; code that swallows an
  exception internally becomes a total function branching on an explicit
  outcome value.
* Python's dynamic `eval` of policy expressions (policy_engine.py,
  `_evaluate_expression`) is a pluggable boolean predicate; it is modelled as an
  oracle argument `evalExpr : String → PolicyContext → Option UserContext →
  Bool` (the source function depends on the policy only through
  `policy.expression`, and swallows its own failures as `False`).
-/

namespace Agion

/-! ## Data model (agion_sdk/types.py) -/

/-- Embeds `PolicyDecision` (types.py): allow / deny / warn / require_approval. -/
inductive PolicyDecision where
  | allow
  | deny
  | warn
  | requireApproval
deriving DecidableEq, Repr

/-- Embeds `EnforcementLevel` (types.py): advisory / soft / hard / critical. -/
inductive EnforcementLevel where
  | advisory
  | soft
  | hard
  | critical
deriving DecidableEq, Repr

/-- Embeds `PolicyRule` (types.py). `metadata` not modelled (never read by the
evaluator). -/
structure PolicyRule where
  id : String
  name : String
  expression : String
  decision : PolicyDecision
  priority : Int
  enforcement : EnforcementLevel
deriving DecidableEq, Repr

/-- Embeds `PolicyContext` (types.py). -/
structure PolicyContext where
  userId : Option String
  orgId : Option String
  role : Option String
  permissions : List String
  agentId : String
  action : String
  resource : Option String
deriving DecidableEq, Repr

/-- Embeds `UserContext` (types.py). -/
structure UserContext where
  userId : String
  orgId : String
  role : String
  permissions : List String
  email : Option String
deriving DecidableEq, Repr

/-- Embeds `PolicyResult` (types.py). `execution_time_ms` (wall clock) is not
modelled. -/
structure PolicyResult where
  decision : PolicyDecision
  allowed : Bool
  matchedPolicies : List String
  violations : List String
  warnings : List String
deriving DecidableEq, Repr

/-- Embeds `PolicyViolationError` (exceptions.py) as raised by
`PolicyEngine.evaluate`: message, `policy_id` and `decision` keyword data. -/
structure PolicyViolationErr where
  message : String
  policyId : Option String
  decision : PolicyDecision
deriving DecidableEq, Repr

/-! ## Policy evaluator (agion_sdk/policy_engine.py) -/

namespace PolicyEngine

/-- The oracle type standing for `PolicyEngine._evaluate_expression`: the source
evaluates `policy.expression` with Python `eval` against the context (and
optional user), returning `False` on any internal failure. -/
abbrev ExprOracle := String → PolicyContext → Option UserContext → Bool

/-- Stable insertion step for descending priority order: an element is placed
before the first element of strictly smaller priority, after all elements of
greater or equal priority that were inserted later in the fold (which came
earlier in the original list). -/
def insertByPriorityDesc (p : PolicyRule) : List PolicyRule → List PolicyRule
  | [] => [p]
  | q :: qs =>
    if q.priority ≤ p.priority then p :: q :: qs
    else q :: insertByPriorityDesc p qs

/-- Embeds `sorted(self._policies.values(), key=lambda p: p.priority,
reverse=True)` (policy_engine.py line 68): a stable sort, higher priority
first, ties keeping original order. -/
def sortByPriorityDesc (l : List PolicyRule) : List PolicyRule :=
  l.foldr insertByPriorityDesc []

/-- Accumulator of the scan loop in `PolicyEngine.evaluate` (lines 70-92). -/
structure EvalAcc where
  matched : List String
  violations : List String
  warnings : List String
  decision : PolicyDecision
deriving DecidableEq, Repr

/-- Embeds one iteration of the `for policy in policies` loop of
`PolicyEngine.evaluate` (policy_engine.py lines 75-92). -/
def evalStep (evalExpr : ExprOracle) (ctx : PolicyContext) (user : Option UserContext)
    (acc : EvalAcc) (policy : PolicyRule) : EvalAcc :=
  if evalExpr policy.expression ctx user then
    let acc1 := { acc with matched := acc.matched ++ [policy.id] }
    if policy.decision = PolicyDecision.deny then
      if policy.enforcement = EnforcementLevel.hard ∨
          policy.enforcement = EnforcementLevel.critical then
        { acc1 with violations := acc1.violations ++ [policy.name],
                    decision := PolicyDecision.deny }
      else if policy.enforcement = EnforcementLevel.soft then
        { acc1 with warnings := acc1.warnings ++ [policy.name] }
      else
        acc1
    else if policy.decision = PolicyDecision.warn then
      { acc1 with warnings := acc1.warnings ++ [policy.name] }
    else if policy.decision = PolicyDecision.requireApproval then
      { acc1 with decision := PolicyDecision.requireApproval }
    else
      acc1
  else
    acc

/-- Embeds `PolicyEngine.evaluate` (policy_engine.py lines 46-123).
`policies` stands for `self._policies.values()`; metric updates (wall-clock
timing) are not modelled.  A `PolicyViolationError` raise becomes
`Except.error`. -/
def evaluate (evalExpr : ExprOracle) (policies : List PolicyRule)
    (ctx : PolicyContext) (user : Option UserContext) :
    Except PolicyViolationErr PolicyResult :=
  let sortedPolicies := sortByPriorityDesc policies
  let acc := sortedPolicies.foldl (evalStep evalExpr ctx user)
    ⟨[], [], [], PolicyDecision.allow⟩
  let result : PolicyResult :=
    { decision := acc.decision
      allowed := decide (acc.decision ≠ PolicyDecision.deny)
      matchedPolicies := acc.matched
      violations := acc.violations
      warnings := acc.warnings }
  if result.allowed = false ∧ result.violations ≠ [] then
    Except.error
      { message := "Policy violation: " ++ String.intercalate ", " acc.violations
        policyId := acc.matched.head?
        decision := acc.decision }
  else
    Except.ok result

/-! ### Characterization helpers for the evaluator

These definitions are used to state theorems about `evaluate`; they are not
part of the embedding itself. -/

/-- A match of such a rule records a violation and fixes the decision to DENY:
decision DENY under HARD or CRITICAL enforcement. -/
def isHardCriticalDeny (p : PolicyRule) : Bool :=
  p.decision == PolicyDecision.deny &&
    (p.enforcement == EnforcementLevel.hard || p.enforcement == EnforcementLevel.critical)

/-- A match of such a rule appends the rule name to `warnings`: a SOFT DENY or
any WARN rule. -/
def recordsWarning (p : PolicyRule) : Bool :=
  (p.decision == PolicyDecision.deny && p.enforcement == EnforcementLevel.soft) ||
    p.decision == PolicyDecision.warn

/-- A match of such a rule overwrites `final_decision`: a HARD/CRITICAL DENY or
a REQUIRE_APPROVAL rule. -/
def isDecisionSetting (p : PolicyRule) : Bool :=
  isHardCriticalDeny p || p.decision == PolicyDecision.requireApproval

/-- The last decision-setting rule of `l` (in scan order) that matches the
context, if any: the rule whose assignment to `final_decision` survives the
scan. -/
def lastDecisionEvent (evalExpr : ExprOracle) (ctx : PolicyContext)
    (user : Option UserContext) : List PolicyRule → Option PolicyRule
  | [] => none
  | p :: ps =>
    match lastDecisionEvent evalExpr ctx user ps with
    | some q => some q
    | none =>
      if evalExpr p.expression ctx user && isDecisionSetting p then some p
      else none

/-! ### Concrete fixtures for counterexamples and witnesses -/

/-- A concrete evaluation context. -/
def ctxEx : PolicyContext := ⟨none, none, none, [], "agent-1", "delete", none⟩

/-- A rule with decision DENY, enforcement HARD, priority 10, expression
`"True"` (which matches every context). -/
def ruleDenyHard : PolicyRule :=
  ⟨"d1", "deny-rule", "True", PolicyDecision.deny, 10, EnforcementLevel.hard⟩

/-- A rule with decision REQUIRE_APPROVAL and priority 5: it is scanned after
`ruleDenyHard`. -/
def ruleReqApproval : PolicyRule :=
  ⟨"r1", "approval-rule", "True", PolicyDecision.requireApproval, 5,
    EnforcementLevel.soft⟩

/-- A rule with decision DENY under ADVISORY enforcement. -/
def ruleDenyAdvisory : PolicyRule :=
  ⟨"a1", "advisory-deny", "True", PolicyDecision.deny, 10,
    EnforcementLevel.advisory⟩

/-- A rule with decision DENY under SOFT enforcement. -/
def ruleDenySoft : PolicyRule :=
  ⟨"s1", "soft-deny", "True", PolicyDecision.deny, 1, EnforcementLevel.soft⟩

/-- The oracle for an expression that evaluates truthy in every context, such
as `"True"`. -/
def oracleTrue : ExprOracle := fun _ _ _ => true

end PolicyEngine

/-! ## Permission cache (agion_sdk/governance_client.py)

`GovernanceClient._permission_cache` is an `OrderedDict` mapping cache keys to
`(result, cached_at)` pairs.  It is modelled as a list of
`(key, result.allowed, cached_at)` triples in the `OrderedDict`'s iteration
order: the front of the list is the entry `popitem(last=False)` removes.
Timestamps (`datetime.now(timezone.utc)`) are integer seconds passed in
explicitly; the cached `PermissionCheckResult` is represented by its `allowed`
field, the only one the cache logic reads. -/

namespace GovernanceClient

/-- One `OrderedDict` entry: key, cached `result.allowed`, `cached_at`. -/
abbrev PermCache := List (String × Bool × Int)

/-- Constructor parameters of `GovernanceClient.__init__` read by the cache
logic: `cache_ttl_approved`, `cache_ttl_denied` (seconds) and the hardcoded
`self._cache_max_size`. -/
structure GCConfig where
  cacheTtlApproved : Int
  cacheTtlDenied : Int
  cacheMaxSize : Nat
deriving DecidableEq, Repr

/-- The `__init__` defaults: `cache_ttl_approved=30`, `cache_ttl_denied=5`,
`self._cache_max_size = 10000`. -/
def defaultGCConfig : GCConfig := ⟨30, 5, 10000⟩

/-- Embeds `GovernanceClient._cache_key`. -/
def cacheKey (actorId resourceId permissionType : String) : String :=
  "perm:" ++ actorId ++ ":" ++ resourceId ++ ":" ++ permissionType

/-- Dictionary lookup `self._permission_cache[cache_key]`. -/
def lookupEntry (key : String) : PermCache → Option (Bool × Int)
  | [] => none
  | e :: es => if e.1 = key then some e.2 else lookupEntry key es

/-- Keys of the cache in `OrderedDict` order. -/
def cacheKeys (c : PermCache) : List String := c.map (·.1)

/-- Removes the entry for `key` (keys are unique in every reachable cache). -/
def removeKey (key : String) : PermCache → PermCache
  | [] => []
  | e :: es => if e.1 = key then es else e :: removeKey key es

/-- Embeds `OrderedDict.move_to_end(cache_key)`: the entry moves to the
most-recently-used end, keeping its value. -/
def moveToEnd (key : String) (c : PermCache) : PermCache :=
  match lookupEntry key c with
  | none => c
  | some v => removeKey key c ++ [(key, v.1, v.2)]

/-- Dictionary assignment `self._permission_cache[cache_key] = value`: replaces
in place when the key exists (an `OrderedDict` keeps the position), appends at
the most-recently-used end otherwise. -/
def setItem (key : String) (v : Bool × Int) : PermCache → PermCache
  | [] => [(key, v.1, v.2)]
  | e :: es => if e.1 = key then (key, v.1, v.2) :: es else e :: setItem key v es

/-- Embeds the call-through tail of `check_permission` (governance_client.py
lines 450-455): evict the front entry via `popitem(last=False)` when
`len(cache) >= self._cache_max_size`, then store `(result, now)`. -/
def cacheInsert (cfg : GCConfig) (now : Int) (resultAllowed : Bool)
    (key : String) (c : PermCache) : PermCache :=
  let c1 := if cfg.cacheMaxSize ≤ c.length then c.tail else c
  setItem key (resultAllowed, now) c1

/-- Embeds the cache behaviour of `GovernanceClient.check_permission`
(governance_client.py lines 418-455).  `now` is the wall-clock second of the
call, `apiAllowed` the `allowed` field the HTTP call would return (the network
round-trip itself is not modelled).  Returns the `allowed` field of the result
handed to the caller together with the new cache. -/
def checkPermission (cfg : GCConfig) (now : Int) (apiAllowed : Bool)
    (key : String) (c : PermCache) : Bool × PermCache :=
  match lookupEntry key c with
  | some (cachedAllowed, cachedAt) =>
    let age := now - cachedAt
    let ttl := if cachedAllowed then cfg.cacheTtlApproved else cfg.cacheTtlDenied
    if age < ttl then
      (cachedAllowed, moveToEnd key c)
    else
      (apiAllowed, cacheInsert cfg now apiAllowed key c)
  | none => (apiAllowed, cacheInsert cfg now apiAllowed key c)

/-- Folds a sequence of `check_permission` calls over the cache; each call is a
`(now, apiAllowed, key)` triple. -/
def runCalls (cfg : GCConfig) (c : PermCache)
    (calls : List (Int × Bool × String)) : PermCache :=
  calls.foldl (fun cache call => (checkPermission cfg call.1 call.2.1 call.2.2 cache).2) c

/-- The hit condition of `check_permission`: the entry for `key` exists and its
age is below the TTL selected by its cached `allowed` value (the servability
predicate of the cache). -/
def servedFromCache (cfg : GCConfig) (now : Int) (key : String)
    (c : PermCache) : Bool :=
  match lookupEntry key c with
  | some (cachedAllowed, cachedAt) =>
    decide (now - cachedAt <
      (if cachedAllowed then cfg.cacheTtlApproved else cfg.cacheTtlDenied))
  | none => false

/-! ### Concrete fixtures for the cache claims

The eviction counterexample fills the cache to its real capacity
(`_cache_max_size = 10000`) with distinct keys; the keys are
`perm:a…a:r:use` with an actor name of `i + 1` letters `a`, so that key
equality reduces to length arithmetic. -/

/-- The cache key for the actor made of `i + 1` letters `a`, resource `r`,
permission type `use`. -/
def keyA (i : Nat) : String :=
  cacheKey (String.mk (List.replicate (i + 1) 'a')) "r" "use"

/-- `n` fresh `check_permission` call-throughs at time 0, all allowed, with
pairwise distinct keys `keyA 0, …, keyA (n-1)`. -/
def fillCalls (n : Nat) : List (Int × Bool × String) :=
  (List.range n).map (fun i => ((0 : Int), true, keyA i))

/-- The cache after filling an empty cache to capacity with
`fillCalls 10000`. -/
def filledCache : PermCache := runCalls defaultGCConfig [] (fillCalls 10000)

/-- The value of the cache after a subsequent hit on `keyA 0` (the
oldest-inserted entry) at time 0: the hit moves that entry to the
most-recently-used end. -/
def hitStateList : PermCache :=
  (List.range 9999).map (fun i => (keyA (i + 1), true, (0 : Int)))
    ++ [(keyA 0, true, 0)]

/-- The value of the cache after one further call-through on the fresh key
`keyA 10000` at time 0 with the cache at capacity: the front entry
(`keyA 1`) is evicted, not the oldest-inserted `keyA 0`. -/
def insertStateList : PermCache :=
  ((List.range 9998).map (fun i => (keyA (i + 2), true, (0 : Int)))
    ++ [(keyA 0, true, 0)]) ++ [(keyA 10000, true, 0)]

/-- Key of the entry cached as allowed in the TTL-asymmetry scenario. -/
def kAllowed : String := cacheKey "actor-a" "res" "use"

/-- Key of the entry cached as denied in the TTL-asymmetry scenario. -/
def kDenied : String := cacheKey "actor-b" "res" "use"

/-- A cache holding one allowed and one denied entry, both inserted at
time 0. -/
def cacheT0 : PermCache := [(kAllowed, true, 0), (kDenied, false, 0)]

end GovernanceClient

/-! ## Event buffer and publisher (agion_sdk/events.py)

`EventClient._buffer` is `deque(maxlen=config.event_buffer_size)`; its entries
are `(stream, data)` pairs, modelled by an arbitrary type `E`.  Flushing either
succeeds (the batched `pipe.execute()` goes through) or fails with an
exception caught inside `_flush_buffer`; the outcome is an explicit boolean. -/

namespace EventClient

/-- Embeds `deque.append` on a deque created with `maxlen=cap`: appending to a
full deque discards the item at the opposite (oldest) end; a `maxlen=0` deque
stays empty. -/
def dequeAppend {E : Type} (cap : Nat) (buf : List E) (e : E) : List E :=
  if cap = 0 then buf
  else if buf.length < cap then buf ++ [e]
  else buf.tail ++ [e]

/-- Embeds the buffer effect of `EventClient._publish_event` (events.py lines
231-247): drop the event when the client is not running, otherwise append to
the bounded deque.  (The size-triggered `asyncio.create_task(self._flush_buffer())`
only schedules a flush; it does not change the buffer in this call.) -/
def publishEvent {E : Type} (running : Bool) (cap : Nat) (buf : List E)
    (e : E) : List E :=
  if running then dequeAppend cap buf e else buf

/-- Publishes a list of events in order (no intervening flush). -/
def publishRun {E : Type} (cap : Nat) (buf : List E) (events : List E) : List E :=
  events.foldl (publishEvent true cap) buf

/-- The two counters `_published_count` and `_failed_count`. -/
structure EventMetricsCounters where
  publishedCount : Nat
  failedCount : Nat
deriving DecidableEq, Repr

/-- Embeds `EventClient._flush_buffer` (events.py lines 261-291).  `writeOk`
says whether the batched `pipe.execute()` succeeds.  The buffer is drained
completely; on success the events are gone and `_published_count` grows; on
failure `_failed_count` grows and `events[:self.config.event_buffer_size]` are
appended back into the (drained, bounded) deque.  The exception is caught
inside the method: the function is total. -/
def flushBuffer {E : Type} (cap : Nat) (writeOk : Bool) (buf : List E)
    (m : EventMetricsCounters) : List E × EventMetricsCounters :=
  if buf.isEmpty then (buf, m)
  else if writeOk then
    ([], ⟨m.publishedCount + buf.length, m.failedCount⟩)
  else
    ((buf.take cap).foldl (dequeAppend cap) [],
     ⟨m.publishedCount, m.failedCount + buf.length⟩)

end EventClient

/-! ## Policy synchronizer (agion_sdk/policy_sync.py)

`PolicySyncWorker._sync_policies` fetches the active policy set over HTTP and
feeds it to `on_policy_update`, which is `AgionSDK._on_policy_update`, i.e.
`PolicyEngine.load_policies`: the engine's policy dict is cleared and refilled
keyed by `policy.id`.  The HTTP outcome is an explicit value: a status code
with the parsed policy list (for 200), or `failure` covering any raised
exception (network errors, body-parse errors). -/

namespace PolicySync

/-- The `PolicyEngine._policies` dict, keyed by policy id, in insertion
order. -/
abbrev PolicyStore := List (String × PolicyRule)

/-- Dictionary assignment used by `load_policies`. -/
def storeSet (d : PolicyStore) (k : String) (p : PolicyRule) : PolicyStore :=
  match d with
  | [] => [(k, p)]
  | e :: es => if e.1 = k then (k, p) :: es else e :: storeSet es k p

/-- Embeds `PolicyEngine.load_policies` (policy_engine.py lines 31-40): clear
the dict, then insert every policy keyed by its id. -/
def loadPolicies (policies : List PolicyRule) : PolicyStore :=
  policies.foldl (fun d p => storeSet d p.id p) []

/-- State of the sync worker visible to `_sync_policies`: the policy store it
updates through `on_policy_update`, plus `_last_sync`, `_sync_count`,
`_sync_errors`. -/
structure SyncState where
  store : PolicyStore
  lastSync : Option Int
  syncCount : Nat
  syncErrors : Nat
deriving DecidableEq, Repr

/-- Outcome of the HTTP fetch inside `_sync_policies`: an HTTP response with
status code and (for status 200) the parsed policy list, or `failure` for any
exception reaching the outer `except` (connection error, JSON or
`_parse_policy` error). -/
inductive FetchOutcome where
  | httpResponse (status : Nat) (policies : List PolicyRule)
  | failure
deriving DecidableEq, Repr

/-- Embeds `PolicySyncWorker._sync_policies` (policy_sync.py lines 165-205).
`now` is the wall-clock second used for `datetime.utcnow()`. -/
def syncPolicies (now : Int) (st : SyncState) (r : FetchOutcome) : SyncState :=
  match r with
  | FetchOutcome.httpResponse status policies =>
    if status = 200 then
      { st with store := loadPolicies policies
                lastSync := some now
                syncCount := st.syncCount + 1 }
    else if status = 404 then
      { st with store := loadPolicies []
                lastSync := some now }
    else
      { st with syncErrors := st.syncErrors + 1 }
  | FetchOutcome.failure =>
    { st with syncErrors := st.syncErrors + 1 }

end PolicySync

/-! ## Correlation RPC client (backend/core/governance_client_redis.py)

`_wait_for_response` reads records from the per-instance response stream via a
consumer group, acknowledges every record it reads, and returns the first
payload whose `correlation_id` matches.  The loop's timing (100ms bounded
blocking reads until the deadline) is abstracted into the finite list of
records the loop gets to read before the timeout; reaching the end of that
list is the timeout.  Wall-clock latency is an explicit parameter. -/

namespace GovernanceClientRedis

/-- A governance response payload, as read from the stream record's JSON
`payload` field.  `decision`, `reason`, `userMessage` are the fields the
calling methods forward; the timeout defaults never read more. -/
structure GovPayload where
  correlationId : String
  decision : String
  reason : String
  userMessage : String
deriving DecidableEq, Repr

/-- One stream record: the stream message id plus the decoded payload. -/
structure RpcRecord where
  messageId : String
  payload : GovPayload
deriving DecidableEq, Repr

/-- Result-level abstraction of
`GovernanceClientRedis._wait_for_response` (governance_client_redis.py lines
264-301) over the flattened sequence of decoded records: the returned payload
is that of the first record whose `correlation_id` matches, and an exhausted
record supply is the timeout (`None`).  This flat view is faithful for the
RETURNED RESULT only (used by the fail-safe default theorems); it does not
model the batch structure of `xreadgroup(count=10)`, which matters for
acknowledgment accounting — see `processBatch` / `waitForResponseBatches`
below for the batch-faithful model. -/
def waitForResponse (correlationId : String) :
    List RpcRecord → List String × Option GovPayload
  | [] => ([], none)
  | r :: rs =>
    if r.payload.correlationId = correlationId then
      ([r.messageId], some r.payload)
    else
      let rest := waitForResponse correlationId rs
      (r.messageId :: rest.1, rest.2)

/-- A raw stream record as delivered by `xreadgroup`: the message id and the
outcome of `json.loads(data.get("payload", "{}"))` — `none` when the JSON
decode raises. -/
structure RawRecord where
  messageId : String
  payloadParse : Option GovPayload
deriving DecidableEq, Repr

/-- Embeds the inner `for message_id, data in entries` loop of
`_wait_for_response` (governance_client_redis.py lines 281-291) on one
`xreadgroup` batch: records are processed in order; a successfully decoded
record whose `correlation_id` matches is acknowledged and its payload
returned — the REMAINING records of the batch are not processed and not
acknowledged; a successfully decoded unmatched record is acknowledged and the
loop continues; a record whose payload fails to decode raises out of the loop
into the outer `except` (lines 296-298) — it and the rest of its batch are
not acknowledged.  Returns the acknowledged ids in order and the returned
payload, if any. -/
def processBatch (correlationId : String) :
    List RawRecord → List String × Option GovPayload
  | [] => ([], none)
  | r :: rs =>
    match r.payloadParse with
    | none => ([], none)
    | some p =>
      if p.correlationId = correlationId then
        ([r.messageId], some p)
      else
        let rest := processBatch correlationId rs
        (r.messageId :: rest.1, rest.2)

/-- Embeds the outer `while` loop of `_wait_for_response` over the successive
`xreadgroup` batches it fetches before the deadline (a failed `xreadgroup`
call delivers no records and behaves like an empty batch): each batch is
processed with `processBatch`; a returned payload ends the call, otherwise
the loop continues with the next batch; exhausting the batches is the
timeout. -/
def waitForResponseBatches (correlationId : String) :
    List (List RawRecord) → List String × Option GovPayload
  | [] => ([], none)
  | b :: rest =>
    let pb := processBatch correlationId b
    match pb.2 with
    | some p => (pb.1, some p)
    | none =>
      let w := waitForResponseBatches correlationId rest
      (pb.1 ++ w.1, w.2)

/-- The records READ from the response stream during the call: `xreadgroup`
delivers a whole batch (up to `count=10` records) into the consumer group's
pending list at once, so every record of every fetched batch — up to and
including the batch that produced the returned payload — has been read,
whether or not the processing loop reached it. -/
def recordsRead (correlationId : String) :
    List (List RawRecord) → List RawRecord
  | [] => []
  | b :: rest =>
    if (processBatch correlationId b).2.isSome then b
    else b ++ recordsRead correlationId rest

/-- The records the processing loop examines and acknowledges in one batch:
the successfully decoded records up to and including the first match, cut
short by a decode failure. -/
def examinedPrefix (correlationId : String) : List RawRecord → List RawRecord
  | [] => []
  | r :: rs =>
    match r.payloadParse with
    | none => []
    | some p =>
      if p.correlationId = correlationId then [r]
      else r :: examinedPrefix correlationId rs

/-- The payload returned from one batch: the first successfully decoded
matching record before any decode failure. -/
def firstParsedMatch (correlationId : String) :
    List RawRecord → Option GovPayload
  | [] => none
  | r :: rs =>
    match r.payloadParse with
    | none => none
    | some p =>
      if p.correlationId = correlationId then some p
      else firstParsedMatch correlationId rs

/-- The dict returned by `check_permission` / `validate_result`, restricted to
the fields every branch sets.  `latencyMs` stands for the measured
`round(latency_ms, 2)` value; `shouldRetry` is only set by validation
defaults. -/
structure GovCallResult where
  decision : String
  reason : String
  userMessage : String
  shouldRetry : Option Bool
  latencyMs : Int
deriving DecidableEq, Repr

/-- How one RPC attempt went at the transport level: the loop read `records`
from the response stream (normal operation, including the no-match timeout),
or the Redis connection failed, or some other exception was raised. -/
inductive RpcTransport where
  | ok (records : List RpcRecord)
  | connError (msg : String)
  | exn (msg : String)
deriving DecidableEq, Repr

/-- Embeds `GovernanceClientRedis.check_permission` (governance_client_redis.py
lines 72-152) from the point the request has been appended: wait for the
correlated response; on a match forward the payload with the measured latency;
on timeout or any exception return the DENY fail-safe default, never raising.
`elapsedMs` is the measured wall-clock latency of the call. -/
def checkPermission (elapsedMs : Int) (correlationId : String)
    (t : RpcTransport) : GovCallResult :=
  match t with
  | RpcTransport.ok records =>
    match (waitForResponse correlationId records).2 with
    | some p =>
      { decision := p.decision, reason := p.reason,
        userMessage := p.userMessage, shouldRetry := none,
        latencyMs := elapsedMs }
    | none =>
      { decision := "DENY", reason := "Governance timeout",
        userMessage := "Unable to verify governance. Action blocked for safety.",
        shouldRetry := none, latencyMs := elapsedMs }
  | RpcTransport.connError m =>
    { decision := "DENY", reason := "Governance unavailable: " ++ m,
      userMessage := "Governance service unavailable. Action blocked for safety.",
      shouldRetry := none, latencyMs := elapsedMs }
  | RpcTransport.exn m =>
    { decision := "DENY", reason := "Governance check failed: " ++ m,
      userMessage := "Governance verification failed. Action blocked.",
      shouldRetry := none, latencyMs := elapsedMs }

/-- Embeds `GovernanceClientRedis.validate_result` (governance_client_redis.py
lines 154-231): same protocol, with the FLAG_FOR_REVIEW fail-safe default; its
single `except Exception` also covers connection errors. -/
def validateResult (elapsedMs : Int) (correlationId : String)
    (t : RpcTransport) : GovCallResult :=
  match t with
  | RpcTransport.ok records =>
    match (waitForResponse correlationId records).2 with
    | some p =>
      { decision := p.decision, reason := p.reason,
        userMessage := p.userMessage, shouldRetry := none,
        latencyMs := elapsedMs }
    | none =>
      { decision := "FLAG_FOR_REVIEW", reason := "Validation timeout",
        userMessage := "Unable to validate result. Flagged for review.",
        shouldRetry := some false, latencyMs := elapsedMs }
  | RpcTransport.connError m =>
    { decision := "FLAG_FOR_REVIEW", reason := "Validation check failed: " ++ m,
      userMessage := "Unable to validate result. Flagged for review.",
      shouldRetry := some false, latencyMs := elapsedMs }
  | RpcTransport.exn m =>
    { decision := "FLAG_FOR_REVIEW", reason := "Validation check failed: " ++ m,
      userMessage := "Unable to validate result. Flagged for review.",
      shouldRetry := some false, latencyMs := elapsedMs }

end GovernanceClientRedis

/-! # Theorems

The remainder of the file proves the claims about the embedded code:
supporting lemmas first, then one theorem per claim (with witnesses and
counterexamples where required). -/

namespace PolicyEngine

/-- A non-matching rule leaves the scan accumulator unchanged. -/
theorem evalStep_of_not_matched {e : ExprOracle} {ctx : PolicyContext}
    {u : Option UserContext} {acc : EvalAcc} {p : PolicyRule}
    (h : e p.expression ctx u = false) : evalStep e ctx u acc p = acc := by
  simp [evalStep, h]

/-- Field-by-field effect of a matching rule on the scan accumulator. -/
theorem evalStep_fields (e : ExprOracle) (ctx : PolicyContext)
    (u : Option UserContext) (acc : EvalAcc) (p : PolicyRule)
    (h : e p.expression ctx u = true) :
    (evalStep e ctx u acc p).matched = acc.matched ++ [p.id] ∧
    (evalStep e ctx u acc p).violations
      = acc.violations ++ (if isHardCriticalDeny p then [p.name] else []) ∧
    (evalStep e ctx u acc p).warnings
      = acc.warnings ++ (if recordsWarning p then [p.name] else []) ∧
    (evalStep e ctx u acc p).decision
      = (if isDecisionSetting p then
          (if p.decision == PolicyDecision.deny then PolicyDecision.deny
           else PolicyDecision.requireApproval)
         else acc.decision) := by
  cases hd : p.decision <;> cases he : p.enforcement <;>
    simp [evalStep, h, hd, he, isHardCriticalDeny, recordsWarning, isDecisionSetting]

/-- The matched-policy ids accumulated by the scan are exactly the ids of the
matching rules, in scan order. -/
theorem foldl_evalStep_matched (e : ExprOracle) (ctx : PolicyContext)
    (u : Option UserContext) :
    ∀ (l : List PolicyRule) (acc : EvalAcc),
      (l.foldl (evalStep e ctx u) acc).matched
        = acc.matched ++ (l.filter (fun p => e p.expression ctx u)).map (·.id)
  | [], acc => by simp
  | p :: ps, acc => by
    by_cases h : e p.expression ctx u = true
    · have hf := (evalStep_fields e ctx u acc p h).1
      simp only [List.foldl_cons, foldl_evalStep_matched e ctx u ps, hf,
        List.filter_cons, h, if_pos, List.map_cons, List.append_assoc,
        List.cons_append, List.nil_append]
    · have h0 : e p.expression ctx u = false := by
        cases hv : e p.expression ctx u
        · rfl
        · exact absurd hv h
      simp only [List.foldl_cons, evalStep_of_not_matched h0,
        foldl_evalStep_matched e ctx u ps, List.filter_cons, h0]
      simp

/-- The violations accumulated by the scan are exactly the names of the
matching HARD/CRITICAL DENY rules, in scan order. -/
theorem foldl_evalStep_violations (e : ExprOracle) (ctx : PolicyContext)
    (u : Option UserContext) :
    ∀ (l : List PolicyRule) (acc : EvalAcc),
      (l.foldl (evalStep e ctx u) acc).violations
        = acc.violations
          ++ (l.filter (fun p => e p.expression ctx u && isHardCriticalDeny p)).map (·.name)
  | [], acc => by simp
  | p :: ps, acc => by
    by_cases h : e p.expression ctx u = true
    · have hf := (evalStep_fields e ctx u acc p h).2.1
      by_cases hd : isHardCriticalDeny p = true
      · simp [List.foldl_cons, foldl_evalStep_violations e ctx u ps, hf, h, hd,
          List.filter_cons]
      · simp [List.foldl_cons, foldl_evalStep_violations e ctx u ps, hf, h, hd,
          List.filter_cons]
    · have h0 : e p.expression ctx u = false := Bool.eq_false_iff.mpr (by simpa using h)
      simp [List.foldl_cons, evalStep_of_not_matched h0,
        foldl_evalStep_violations e ctx u ps, List.filter_cons, h0]

/-- The final decision of the scan is determined by the last matching
decision-setting rule: DENY when it is a HARD/CRITICAL DENY, REQUIRE_APPROVAL
when it is a REQUIRE_APPROVAL rule, the initial decision when there is none. -/
theorem foldl_evalStep_decision (e : ExprOracle) (ctx : PolicyContext)
    (u : Option UserContext) :
    ∀ (l : List PolicyRule) (acc : EvalAcc),
      (l.foldl (evalStep e ctx u) acc).decision
        = (match lastDecisionEvent e ctx u l with
           | none => acc.decision
           | some p =>
             if p.decision == PolicyDecision.deny then PolicyDecision.deny
             else PolicyDecision.requireApproval)
  | [], acc => by simp [lastDecisionEvent]
  | p :: ps, acc => by
    rw [List.foldl_cons, foldl_evalStep_decision e ctx u ps]
    cases hlast : lastDecisionEvent e ctx u ps with
    | some q => simp [lastDecisionEvent, hlast]
    | none =>
      simp only [lastDecisionEvent, hlast]
      by_cases h : e p.expression ctx u = true
      · have hf := (evalStep_fields e ctx u acc p h).2.2.2
        by_cases hds : isDecisionSetting p = true
        · simp [h, hds, hf]
        · simp [h, hds, hf, Bool.eq_false_iff.mpr hds]
      · have h0 : e p.expression ctx u = false := Bool.eq_false_iff.mpr (by simpa using h)
        simp [evalStep_of_not_matched h0, h0]

/-- Inserting into the priority-sorted list is a permutation. -/
theorem insertByPriorityDesc_perm (p : PolicyRule) (l : List PolicyRule) :
    (insertByPriorityDesc p l).Perm (p :: l) := by
  induction l with
  | nil => simp [insertByPriorityDesc]
  | cons q qs ih =>
    rw [insertByPriorityDesc]
    split
    · exact List.Perm.refl _
    · exact (List.Perm.cons q ih).trans (List.Perm.swap p q qs)

/-- The stable priority sort is a permutation of its input. -/
theorem sortByPriorityDesc_perm (l : List PolicyRule) :
    (sortByPriorityDesc l).Perm l := by
  induction l with
  | nil => simp [sortByPriorityDesc]
  | cons p ps ih =>
    rw [sortByPriorityDesc, List.foldr_cons]
    exact (insertByPriorityDesc_perm p _).trans (List.Perm.cons p ih)

/-- The last decision event is a matching decision-setting rule of the list. -/
theorem lastDecisionEvent_spec {e : ExprOracle} {ctx : PolicyContext}
    {u : Option UserContext} {p : PolicyRule} :
    ∀ (l : List PolicyRule), lastDecisionEvent e ctx u l = some p →
      p ∈ l ∧ e p.expression ctx u = true ∧ isDecisionSetting p = true
  | [], h => by simp [lastDecisionEvent] at h
  | q :: qs, h => by
    rw [lastDecisionEvent] at h
    cases hqs : lastDecisionEvent e ctx u qs with
    | some x =>
      rw [hqs] at h
      have hx : x = p := by simpa using h
      subst hx
      obtain ⟨hm, he, hd⟩ := lastDecisionEvent_spec qs hqs
      exact ⟨List.mem_cons_of_mem q hm, he, hd⟩
    | none =>
      rw [hqs] at h
      simp only at h
      split at h
      · rename_i hcond
        obtain rfl : q = p := by injection h
        simp only [Bool.and_eq_true] at hcond
        exact ⟨List.mem_cons_self q qs, hcond.1, hcond.2⟩
      · exact absurd h (by simp)

/-- A scan in which no rule matches has no decision event. -/
theorem lastDecisionEvent_none_of_no_match {e : ExprOracle} {ctx : PolicyContext}
    {u : Option UserContext} :
    ∀ {l : List PolicyRule}, (∀ p ∈ l, e p.expression ctx u = false) →
      lastDecisionEvent e ctx u l = none
  | [], _ => rfl
  | q :: qs, h => by
    rw [lastDecisionEvent,
      lastDecisionEvent_none_of_no_match (fun p hp => h p (List.mem_cons_of_mem q hp))]
    simp [h q (List.mem_cons_self q qs)]

/-- Unfolding of `evaluate`: the raise condition `not result.allowed and
violations` is equivalent to the accumulated decision being DENY with a
non-empty violation list. -/
theorem evaluate_eq (e : ExprOracle) (policies : List PolicyRule)
    (ctx : PolicyContext) (u : Option UserContext) :
    evaluate e policies ctx u =
      (if ((sortByPriorityDesc policies).foldl (evalStep e ctx u)
            ⟨[], [], [], PolicyDecision.allow⟩).decision = PolicyDecision.deny ∧
          ((sortByPriorityDesc policies).foldl (evalStep e ctx u)
            ⟨[], [], [], PolicyDecision.allow⟩).violations ≠ [] then
        Except.error
          { message := "Policy violation: "
              ++ String.intercalate ", "
                ((sortByPriorityDesc policies).foldl (evalStep e ctx u)
                  ⟨[], [], [], PolicyDecision.allow⟩).violations
            policyId := ((sortByPriorityDesc policies).foldl (evalStep e ctx u)
                  ⟨[], [], [], PolicyDecision.allow⟩).matched.head?
            decision := ((sortByPriorityDesc policies).foldl (evalStep e ctx u)
                  ⟨[], [], [], PolicyDecision.allow⟩).decision }
      else
        Except.ok
          { decision := ((sortByPriorityDesc policies).foldl (evalStep e ctx u)
                ⟨[], [], [], PolicyDecision.allow⟩).decision
            allowed := decide (((sortByPriorityDesc policies).foldl (evalStep e ctx u)
                ⟨[], [], [], PolicyDecision.allow⟩).decision ≠ PolicyDecision.deny)
            matchedPolicies := ((sortByPriorityDesc policies).foldl (evalStep e ctx u)
                ⟨[], [], [], PolicyDecision.allow⟩).matched
            violations := ((sortByPriorityDesc policies).foldl (evalStep e ctx u)
                ⟨[], [], [], PolicyDecision.allow⟩).violations
            warnings := ((sortByPriorityDesc policies).foldl (evalStep e ctx u)
                ⟨[], [], [], PolicyDecision.allow⟩).warnings } ) := by
  rw [evaluate]
  by_cases h : ((sortByPriorityDesc policies).foldl (evalStep e ctx u)
      ⟨[], [], [], PolicyDecision.allow⟩).decision = PolicyDecision.deny <;>
    simp [h]

/-- A final decision of DENY always comes with a recorded violation. -/
theorem violations_ne_nil_of_deny (e : ExprOracle) (ctx : PolicyContext)
    (u : Option UserContext) (l : List PolicyRule)
    (h : (l.foldl (evalStep e ctx u) ⟨[], [], [], PolicyDecision.allow⟩).decision
      = PolicyDecision.deny) :
    (l.foldl (evalStep e ctx u) ⟨[], [], [], PolicyDecision.allow⟩).violations ≠ [] := by
  rw [foldl_evalStep_decision] at h
  rw [foldl_evalStep_violations]
  cases hlast : lastDecisionEvent e ctx u l with
  | none => rw [hlast] at h; exact absurd h (by decide)
  | some p =>
    rw [hlast] at h
    obtain ⟨hmem, hmatch, hds⟩ := lastDecisionEvent_spec _ hlast
    have hdeny : p.decision = PolicyDecision.deny := by
      by_cases hb : p.decision = PolicyDecision.deny
      · exact hb
      · simp [hb] at h
    have hhcd : isHardCriticalDeny p = true := by
      have hds2 := hds
      simp only [isDecisionSetting, Bool.or_eq_true] at hds2
      rcases hds2 with h1 | h1
      · exact h1
      · exfalso
        rw [hdeny] at h1
        simp at h1
    have hpin : p ∈ l.filter (fun q => e q.expression ctx u && isHardCriticalDeny q) :=
      List.mem_filter.mpr ⟨hmem, by simp [hmatch, hhcd]⟩
    intro hnil
    rw [List.nil_append] at hnil
    rw [List.map_eq_nil_iff.mp hnil] at hpin
    simp at hpin

/-- C1 (amended): the precedence law holds only up to scan order.  Sorting by
descending priority, the final outcome of `evaluate` is decided by the last
matching HARD/CRITICAL DENY or REQUIRE_APPROVAL rule in scan order: if it is a
HARD/CRITICAL DENY, `evaluate` raises `PolicyViolationError` with decision
DENY; if it is a REQUIRE_APPROVAL rule — even when a HARD/CRITICAL DENY rule
matched earlier in the scan — the result is returned with decision
REQUIRE_APPROVAL; with no matching decision-setting rule the decision is
ALLOW, and with no match at all the decision is ALLOW with no matched
policies. -/
theorem evaluate_precedence (e : ExprOracle) (ctx : PolicyContext)
    (u : Option UserContext) (policies : List PolicyRule) :
    (lastDecisionEvent e ctx u (sortByPriorityDesc policies) = none →
      ∃ r, evaluate e policies ctx u = Except.ok r ∧
        r.decision = PolicyDecision.allow) ∧
    (∀ p, lastDecisionEvent e ctx u (sortByPriorityDesc policies) = some p →
      (p.decision = PolicyDecision.deny →
        ∃ er, evaluate e policies ctx u = Except.error er ∧
          er.decision = PolicyDecision.deny) ∧
      (p.decision = PolicyDecision.requireApproval →
        ∃ r, evaluate e policies ctx u = Except.ok r ∧
          r.decision = PolicyDecision.requireApproval)) ∧
    ((∀ p ∈ policies, e p.expression ctx u = false) →
      ∃ r, evaluate e policies ctx u = Except.ok r ∧
        r.decision = PolicyDecision.allow ∧ r.matchedPolicies = []) := by
  have hdec := foldl_evalStep_decision e ctx u (sortByPriorityDesc policies)
    ⟨[], [], [], PolicyDecision.allow⟩
  refine ⟨?_, ?_, ?_⟩
  · intro hnone
    rw [hnone] at hdec
    rw [evaluate_eq, if_neg (by rw [hdec]; simp)]
    exact ⟨_, rfl, hdec⟩
  · intro p hp
    constructor
    · intro hpd
      have hA : ((sortByPriorityDesc policies).foldl (evalStep e ctx u)
          ⟨[], [], [], PolicyDecision.allow⟩).decision = PolicyDecision.deny := by
        rw [hdec, hp]; simp [hpd]
      have hviol := violations_ne_nil_of_deny e ctx u (sortByPriorityDesc policies) hA
      rw [evaluate_eq, if_pos ⟨hA, hviol⟩]
      exact ⟨_, rfl, hA⟩
    · intro hpd
      have hA : ((sortByPriorityDesc policies).foldl (evalStep e ctx u)
          ⟨[], [], [], PolicyDecision.allow⟩).decision
          = PolicyDecision.requireApproval := by
        rw [hdec, hp]; simp [hpd]
      rw [evaluate_eq, if_neg (by rw [hA]; simp)]
      exact ⟨_, rfl, hA⟩
  · intro hno
    have hno2 : ∀ p ∈ sortByPriorityDesc policies, e p.expression ctx u = false :=
      fun p hp => hno p ((sortByPriorityDesc_perm policies).mem_iff.mp hp)
    have hnone := lastDecisionEvent_none_of_no_match hno2
    rw [hnone] at hdec
    have hm := foldl_evalStep_matched e ctx u (sortByPriorityDesc policies)
      ⟨[], [], [], PolicyDecision.allow⟩
    have hfil : (sortByPriorityDesc policies).filter
        (fun p => e p.expression ctx u) = [] := by
      rw [List.filter_eq_nil_iff]
      intro p hp
      simp [hno2 p hp]
    rw [hfil] at hm
    simp only [List.map_nil, List.nil_append] at hm
    rw [evaluate_eq, if_neg (by rw [hdec]; simp)]
    exact ⟨_, rfl, hdec, hm⟩

/-- C1 (counterexample): a HARD DENY rule at priority 10 and a
REQUIRE_APPROVAL rule at priority 5, both matching.  The DENY is scanned
first, then the REQUIRE_APPROVAL match overwrites the final decision: the
claim says the decision must be DENY, but `evaluate` returns normally with
decision REQUIRE_APPROVAL (and no exception), even though the hard DENY rule
matched and its violation was recorded. -/
theorem evaluate_precedence_counterexample :
    evaluate oracleTrue [ruleDenyHard, ruleReqApproval] ctxEx none =
      Except.ok ⟨PolicyDecision.requireApproval, true, ["d1", "r1"],
        ["deny-rule"], []⟩ ∧
    PolicyDecision.requireApproval ≠ PolicyDecision.deny := ⟨rfl, by decide⟩

/-- Witness for `evaluate_precedence`: a single matching HARD DENY rule makes
`evaluate` raise with decision DENY. -/
theorem evaluate_precedence_witness :
    ∃ er, evaluate oracleTrue [ruleDenyHard] ctxEx none = Except.error er ∧
      er.decision = PolicyDecision.deny :=
  ((evaluate_precedence oracleTrue ctxEx none [ruleDenyHard]).2.1
    ruleDenyHard rfl).1 rfl

/-- C7 (amended): a matching DENY rule under SOFT enforcement records the rule
name as a warning only, and under ADVISORY enforcement records nothing beyond
the matched id; in both cases the final decision and the violations are left
unchanged.  (The claim as stated — a warning is recorded for ADVISORY as
well — fails; see the counterexample.) -/
theorem softAdvisoryDeny_no_decision_change (e : ExprOracle) (ctx : PolicyContext)
    (u : Option UserContext) (acc : EvalAcc) (p : PolicyRule)
    (hm : e p.expression ctx u = true) (hd : p.decision = PolicyDecision.deny) :
    (p.enforcement = EnforcementLevel.soft →
      evalStep e ctx u acc p =
        { acc with matched := acc.matched ++ [p.id],
                   warnings := acc.warnings ++ [p.name] }) ∧
    (p.enforcement = EnforcementLevel.advisory →
      evalStep e ctx u acc p = { acc with matched := acc.matched ++ [p.id] }) := by
  constructor <;> intro he <;> simp [evalStep, hm, hd, he]

/-- C7 (counterexample): a matching ADVISORY DENY rule records no warning at
all — the result's warning list is empty, though the claim says the rule name
is recorded as a warning. -/
theorem advisoryDeny_no_warning_counterexample :
    evaluate oracleTrue [ruleDenyAdvisory] ctxEx none =
      Except.ok ⟨PolicyDecision.allow, true, ["a1"], [], []⟩ ∧
    "advisory-deny" ∉ ([] : List String) := ⟨rfl, by simp⟩

/-- Witness for `softAdvisoryDeny_no_decision_change` at concrete rules. -/
theorem softAdvisoryDeny_witness :
    evalStep oracleTrue ctxEx none ⟨[], [], [], PolicyDecision.allow⟩ ruleDenySoft =
      ⟨["s1"], [], ["soft-deny"], PolicyDecision.allow⟩ ∧
    evalStep oracleTrue ctxEx none ⟨[], [], [], PolicyDecision.allow⟩ ruleDenyAdvisory =
      ⟨["a1"], [], [], PolicyDecision.allow⟩ := by
  constructor
  · exact ((softAdvisoryDeny_no_decision_change oracleTrue ctxEx none _
      ruleDenySoft rfl rfl).1 rfl).trans rfl
  · exact ((softAdvisoryDeny_no_decision_change oracleTrue ctxEx none _
      ruleDenyAdvisory rfl rfl).2 rfl).trans rfl

/-- C10: `evaluate` never returns a result whose decision is DENY — a DENY
outcome always raises `PolicyViolationError` carrying decision DENY and, as
`policy_id`, the id of the first matched policy in scan order (which exists);
every returned result has `allowed = true`. -/
theorem evaluate_deny_raises (e : ExprOracle) (ctx : PolicyContext)
    (u : Option UserContext) (policies : List PolicyRule) :
    (∀ r, evaluate e policies ctx u = Except.ok r →
      r.allowed = true ∧ r.decision ≠ PolicyDecision.deny) ∧
    (∀ er, evaluate e policies ctx u = Except.error er →
      er.decision = PolicyDecision.deny ∧
      er.policyId
        = ((sortByPriorityDesc policies).filter
            (fun p => e p.expression ctx u)).head?.map (·.id) ∧
      er.policyId ≠ none) := by
  constructor
  · intro r hr
    rw [evaluate_eq] at hr
    split at hr
    · exact absurd hr (by simp)
    · rename_i hcond
      injection hr with hr2
      subst hr2
      have hnd : ((sortByPriorityDesc policies).foldl (evalStep e ctx u)
          ⟨[], [], [], PolicyDecision.allow⟩).decision ≠ PolicyDecision.deny := by
        intro hA
        exact hcond ⟨hA, violations_ne_nil_of_deny e ctx u _ hA⟩
      exact ⟨by simp [hnd], hnd⟩
  · intro er her
    rw [evaluate_eq] at her
    split at her
    · rename_i hcond
      obtain ⟨hA, hviol⟩ := hcond
      injection her with her2
      subst her2
      have hm := foldl_evalStep_matched e ctx u (sortByPriorityDesc policies)
        ⟨[], [], [], PolicyDecision.allow⟩
      simp only [List.nil_append] at hm
      refine ⟨hA, ?_, ?_⟩
      · show (((sortByPriorityDesc policies).foldl (evalStep e ctx u)
          ⟨[], [], [], PolicyDecision.allow⟩).matched).head? = _
        rw [hm, List.head?_map]
      · show (((sortByPriorityDesc policies).foldl (evalStep e ctx u)
          ⟨[], [], [], PolicyDecision.allow⟩).matched).head? ≠ none
        rw [hm]
        have hv := foldl_evalStep_violations e ctx u (sortByPriorityDesc policies)
          ⟨[], [], [], PolicyDecision.allow⟩
        simp only [List.nil_append] at hv
        rw [hv] at hviol
        have h1 : (sortByPriorityDesc policies).filter
            (fun p => e p.expression ctx u && isHardCriticalDeny p) ≠ [] := by
          intro hnil
          rw [hnil] at hviol
          exact hviol rfl
        obtain ⟨p, hp⟩ := List.exists_mem_of_ne_nil _ h1
        have hpm := List.mem_filter.mp hp
        have hmatch : e p.expression ctx u = true := ((Bool.and_eq_true _ _).mp hpm.2).1
        have hp2 : p ∈ (sortByPriorityDesc policies).filter
            (fun p => e p.expression ctx u) :=
          List.mem_filter.mpr ⟨hpm.1, hmatch⟩
        cases hl : (sortByPriorityDesc policies).filter
            (fun p => e p.expression ctx u) with
        | nil => rw [hl] at hp2; exact absurd hp2 (List.not_mem_nil p)
        | cons a as => simp [hl]
    · exact absurd her (by simp)

/-- Witness for `evaluate_deny_raises`: applied to a returned REQUIRE_APPROVAL
result and to a raised DENY error at concrete rule sets. -/
theorem evaluate_deny_raises_witness :
    (⟨PolicyDecision.requireApproval, true, ["r1"], [], []⟩ : PolicyResult).allowed
        = true ∧
    (⟨"Policy violation: deny-rule", some "d1",
        PolicyDecision.deny⟩ : PolicyViolationErr).decision = PolicyDecision.deny := by
  constructor
  · exact ((evaluate_deny_raises oracleTrue ctxEx none [ruleReqApproval]).1 _ rfl).1
  · exact ((evaluate_deny_raises oracleTrue ctxEx none [ruleDenyHard]).2 _ rfl).1

end PolicyEngine

namespace GovernanceClient

/-- A key is absent from the cache dict exactly when it is not among the
cache keys. -/
theorem lookupEntry_eq_none_iff (k : String) :
    ∀ c : PermCache, lookupEntry k c = none ↔ k ∉ cacheKeys c
  | [] => by simp [lookupEntry, cacheKeys]
  | e :: es => by
    rw [lookupEntry]
    by_cases h : e.1 = k
    · simp [h, cacheKeys]
    · simp only [h, if_false, cacheKeys, List.map_cons, List.mem_cons]
      rw [lookupEntry_eq_none_iff k es]
      constructor
      · intro hn hmem
        rcases hmem with h1 | h1
        · exact h h1.symm
        · exact hn h1
      · intro hn h1
        exact hn (Or.inr h1)

/-- Assigning a fresh key appends the entry at the most-recently-used end. -/
theorem setItem_of_not_mem (k : String) (v : Bool × Int) :
    ∀ c : PermCache, k ∉ cacheKeys c → setItem k v c = c ++ [(k, v.1, v.2)]
  | [], _ => rfl
  | e :: es, h => by
    have h1 : ¬ e.1 = k := by
      intro he
      exact h (by simp [cacheKeys, he])
    rw [setItem, if_neg h1,
      setItem_of_not_mem k v es (fun hm => h (by simp [cacheKeys] at hm ⊢; exact Or.inr hm))]
    rfl

/-- Removing a key from a duplicate-free cache removes it completely. -/
theorem removeKey_not_mem_of_nodup (k : String) :
    ∀ c : PermCache, (cacheKeys c).Nodup → k ∉ cacheKeys (removeKey k c)
  | [], _ => by simp [removeKey, cacheKeys]
  | e :: es, h => by
    rw [cacheKeys, List.map_cons, List.nodup_cons] at h
    rw [removeKey]
    by_cases h1 : e.1 = k
    · rw [if_pos h1]
      rw [← h1]
      exact h.1
    · rw [if_neg h1]
      intro hmem
      rw [cacheKeys, List.map_cons, List.mem_cons] at hmem
      rcases hmem with h2 | h2
      · exact h1 h2.symm
      · exact removeKey_not_mem_of_nodup k es h.2 h2

/-- Lookup skips a prefix that does not hold the key. -/
theorem lookupEntry_append_of_not_mem_left (k : String) (l2 : PermCache) :
    ∀ l1 : PermCache, k ∉ cacheKeys l1 →
      lookupEntry k (l1 ++ l2) = lookupEntry k l2
  | [], _ => rfl
  | e :: es, h => by
    have h1 : ¬ e.1 = k := fun he => h (by simp [cacheKeys, he])
    rw [List.cons_append, lookupEntry, if_neg h1,
      lookupEntry_append_of_not_mem_left k l2 es
        (fun hm => h (by rw [cacheKeys, List.map_cons, List.mem_cons]; exact Or.inr hm))]

/-- Cache keys distribute over appends. -/
theorem cacheKeys_append (l1 l2 : PermCache) :
    cacheKeys (l1 ++ l2) = cacheKeys l1 ++ cacheKeys l2 := by
  simp [cacheKeys]

/-- A fresh hit whose entry sits at the front of the cache: the cached value
is returned and the entry moves to the most-recently-used end. -/
theorem checkPermission_hit_head (cfg : GCConfig) (now : Int) (api : Bool)
    (k : String) (a : Bool) (t : Int) (rest : PermCache)
    (h : now - t < (if a then cfg.cacheTtlApproved else cfg.cacheTtlDenied)) :
    checkPermission cfg now api k ((k, a, t) :: rest) = (a, rest ++ [(k, a, t)]) := by
  have hl : lookupEntry k ((k, a, t) :: rest) = some (a, t) := by
    rw [lookupEntry, if_pos rfl]
  simp only [checkPermission, hl]
  rw [if_pos h, moveToEnd, hl, removeKey, if_pos rfl]

/-- A miss calls through and stores the result. -/
theorem checkPermission_miss (cfg : GCConfig) (now : Int) (api : Bool)
    (k : String) (c : PermCache) (hl : lookupEntry k c = none) :
    checkPermission cfg now api k c = (api, cacheInsert cfg now api k c) := by
  simp only [checkPermission, hl]

/-- Cache component of `checkPermission_hit_head`. -/
theorem checkPermission_hit_head_snd (cfg : GCConfig) (now : Int) (api : Bool)
    (k : String) (a : Bool) (t : Int) (rest : PermCache)
    (h : now - t < (if a then cfg.cacheTtlApproved else cfg.cacheTtlDenied)) :
    (checkPermission cfg now api k ((k, a, t) :: rest)).2 = rest ++ [(k, a, t)] := by
  rw [checkPermission_hit_head cfg now api k a t rest h]

/-- Cache component of `checkPermission_miss`. -/
theorem checkPermission_miss_snd (cfg : GCConfig) (now : Int) (api : Bool)
    (k : String) (c : PermCache) (hl : lookupEntry k c = none) :
    (checkPermission cfg now api k c).2 = cacheInsert cfg now api k c := by
  rw [checkPermission_miss cfg now api k c hl]

/-- At capacity, the insert drops the front entry before storing. -/
theorem cacheInsert_at_capacity (cfg : GCConfig) (now : Int) (api : Bool)
    (k : String) (c : PermCache) (h : cfg.cacheMaxSize ≤ c.length) :
    cacheInsert cfg now api k c = setItem k (api, now) c.tail := by
  rw [cacheInsert, if_pos h]

/-- Length of the keys used by the eviction counterexample. -/
theorem keyA_length (i : Nat) : (keyA i).length = i + 12 := by
  have hmk : (String.mk (List.replicate (i + 1) 'a')).length = i + 1 := by
    show (List.replicate (i + 1) 'a').length = i + 1
    simp
  have h1 : "perm:".length = 5 := rfl
  have h2 : ":".length = 1 := rfl
  have h3 : "r".length = 1 := rfl
  have h4 : "use".length = 3 := rfl
  simp [keyA, cacheKey, String.length_append, hmk, h1, h2, h3, h4]
  omega

/-- The counterexample keys are pairwise distinct. -/
theorem keyA_injective : Function.Injective keyA := by
  intro i j h
  have := congrArg String.length h
  rw [keyA_length, keyA_length] at this
  omega

/-- Filling the cache with fresh, pairwise-distinct keys within capacity
appends the entries in call order. -/
theorem runCalls_fresh_fill (cfg : GCConfig) :
    ∀ (ks : List String) (st : PermCache),
      (∀ k ∈ ks, k ∉ cacheKeys st) → ks.Nodup →
      st.length + ks.length ≤ cfg.cacheMaxSize →
      runCalls cfg st (ks.map fun k => ((0 : Int), true, k))
        = st ++ ks.map (fun k => (k, true, (0 : Int)))
  | [], st, _, _, _ => by simp [runCalls]
  | k :: ks, st, hfresh, hnodup, hlen => by
    have hk : k ∉ cacheKeys st := hfresh k (List.mem_cons_self k ks)
    have hlook : lookupEntry k st = none := (lookupEntry_eq_none_iff k st).mpr hk
    have hcap : ¬ cfg.cacheMaxSize ≤ st.length := by
      simp only [List.length_cons] at hlen
      omega
    have hstep : (checkPermission cfg 0 true k st).2 = st ++ [(k, true, 0)] := by
      simp only [checkPermission, hlook, cacheInsert, if_neg hcap]
      exact setItem_of_not_mem k (true, 0) st hk
    rw [List.nodup_cons] at hnodup
    simp only [List.map_cons, runCalls, List.foldl_cons]
    have hrest := runCalls_fresh_fill cfg ks (st ++ [(k, true, 0)])
      (by
        intro k2 hk2
        rw [cacheKeys_append]
        intro hmem
        rcases List.mem_append.mp hmem with h1 | h1
        · exact hfresh k2 (List.mem_cons_of_mem k hk2) h1
        · have : k2 = k := by simpa [cacheKeys] using h1
          exact hnodup.1 (this ▸ hk2))
      hnodup.2
      (by
        rw [List.length_append]
        simp only [List.length_cons] at hlen
        simp
        omega)
    show runCalls cfg (checkPermission cfg 0 true k st).2
      (ks.map fun k => ((0 : Int), true, k)) = _
    rw [hstep, hrest, List.append_assoc]
    rfl

/-- The cache after `fillCalls 10000` holds the 10000 keys in insertion
order. -/
theorem filledCache_eq :
    filledCache = (List.range 10000).map (fun i => (keyA i, true, (0 : Int))) := by
  have h := runCalls_fresh_fill defaultGCConfig ((List.range 10000).map keyA) []
    (by intro k hk; simp [cacheKeys])
    ((List.nodup_range 10000).map keyA_injective)
    (by simp [defaultGCConfig])
  rw [filledCache, fillCalls,
    show (List.range 10000).map (fun i => ((0 : Int), true, keyA i))
      = ((List.range 10000).map keyA).map (fun k => ((0 : Int), true, k)) from by
        rw [List.map_map]; rfl,
    h, List.nil_append, List.map_map]
  rfl

/-- Front/rest decomposition of the filled cache. -/
theorem filledCache_cons :
    filledCache = (keyA 0, true, (0 : Int))
      :: (List.range 9999).map (fun i => (keyA (i + 1), true, (0 : Int))) := by
  rw [filledCache_eq, show (10000 : Nat) = 9999 + 1 from rfl,
    List.range_succ_eq_map, List.map_cons, List.map_map]
  rfl

/-- The hit on `keyA 0` moves its entry to the most-recently-used end. -/
theorem hitState_eq :
    (checkPermission defaultGCConfig 0 true (keyA 0) filledCache).2
      = hitStateList := by
  conv_lhs => rw [filledCache_cons]
  conv_lhs => rw [checkPermission_hit_head_snd _ _ _ _ _ _ _ (by simp [defaultGCConfig])]
  rw [hitStateList]

/-- Keys of the cache after the hit. -/
theorem hitStateList_keys :
    cacheKeys hitStateList
      = (List.range 9999).map (fun i => keyA (i + 1)) ++ [keyA 0] := by
  rw [hitStateList, cacheKeys_append, cacheKeys, cacheKeys, List.map_map,
    List.map_cons, List.map_nil]
  rfl

/-- The fresh key of the final insert is not in the cache after the hit. -/
theorem keyA10000_not_in_hitState : keyA 10000 ∉ cacheKeys hitStateList := by
  rw [hitStateList_keys]
  intro hmem
  rcases List.mem_append.mp hmem with h1 | h1
  · obtain ⟨i, hi, hki⟩ := List.mem_map.mp h1
    have := keyA_injective hki
    rw [List.mem_range] at hi
    omega
  · have : keyA 10000 = keyA 0 := by simpa using h1
    have := keyA_injective this
    omega

/-- The cache is still at capacity after the hit. -/
theorem hitStateList_length : hitStateList.length = 10000 := by
  rw [hitStateList]
  simp

/-- Decomposition of the tail dropped by `popitem(last=False)`. -/
theorem hitStateList_tail :
    hitStateList.tail
      = (List.range 9998).map (fun i => (keyA (i + 2), true, (0 : Int)))
        ++ [(keyA 0, true, 0)] := by
  rw [hitStateList, show (9999 : Nat) = 9998 + 1 from rfl,
    List.range_succ_eq_map, List.map_cons, List.map_map, List.cons_append,
    List.tail_cons]
  rfl

/-- The fresh key is not in the evicted tail either. -/
theorem keyA10000_not_in_tail :
    keyA 10000 ∉ cacheKeys (hitStateList.tail) := by
  rw [hitStateList_tail, cacheKeys_append, cacheKeys, cacheKeys, List.map_map]
  intro hmem
  rcases List.mem_append.mp hmem with h1 | h1
  · obtain ⟨i, hi, hki⟩ := List.mem_map.mp h1
    have := keyA_injective hki
    rw [List.mem_range] at hi
    omega
  · have : keyA 10000 = keyA 0 := by simpa using h1
    have := keyA_injective this
    omega

/-- The final insert at capacity evicts the front entry `keyA 1`. -/
theorem insertState_eq :
    (checkPermission defaultGCConfig 0 true (keyA 10000) hitStateList).2
      = insertStateList := by
  have hl : lookupEntry (keyA 10000) hitStateList = none :=
    (lookupEntry_eq_none_iff _ _).mpr keyA10000_not_in_hitState
  have hcap : defaultGCConfig.cacheMaxSize ≤ hitStateList.length := by
    rw [hitStateList_length]
    exact le_refl _
  have hset := setItem_of_not_mem (keyA 10000) (true, 0) hitStateList.tail
    keyA10000_not_in_tail
  conv_lhs => rw [checkPermission_miss_snd _ _ _ _ _ hl]
  conv_lhs => rw [cacheInsert_at_capacity _ _ _ _ _ hcap]
  conv_lhs => rw [hset]
  conv_lhs => rw [hitStateList_tail]
  rw [insertStateList]

/-- The hit condition of `check_permission`, read off a cache entry. -/
theorem servedFromCache_some (cfg : GCConfig) (now : Int) (key : String)
    (c : PermCache) (a : Bool) (ts : Int)
    (hl : lookupEntry key c = some (a, ts)) :
    servedFromCache cfg now key c
      = decide (now - ts < (if a then cfg.cacheTtlApproved else cfg.cacheTtlDenied)) := by
  simp only [servedFromCache, hl]

/-- C2 (amended): a cache hit serves the cached value, moves the entry to the
most-recently-used end (so access DOES change the eviction order — the
`OrderedDict` is used as an LRU, not a pure FIFO) and does not reset the
entry's `cached_at` timestamp (no sliding expiration); a call-through with the
cache at capacity evicts exactly the single front — least-recently-used —
entry before inserting. -/
theorem permissionCache_lru (cfg : GCConfig) (now : Int) (api : Bool)
    (key : String) (c : PermCache) :
    (∀ (cachedAllowed : Bool) (cachedAt : Int),
      lookupEntry key c = some (cachedAllowed, cachedAt) →
      now - cachedAt
        < (if cachedAllowed then cfg.cacheTtlApproved else cfg.cacheTtlDenied) →
      checkPermission cfg now api key c = (cachedAllowed, moveToEnd key c) ∧
      ((cacheKeys c).Nodup →
        lookupEntry key (checkPermission cfg now api key c).2
          = some (cachedAllowed, cachedAt))) ∧
    (lookupEntry key c = none → cfg.cacheMaxSize ≤ c.length →
      checkPermission cfg now api key c = (api, setItem key (api, now) c.tail)) := by
  constructor
  · intro cachedAllowed cachedAt hl httl
    have hstep : checkPermission cfg now api key c = (cachedAllowed, moveToEnd key c) := by
      rw [checkPermission, hl]
      simp only [httl, if_pos]
    refine ⟨hstep, fun hnd => ?_⟩
    rw [hstep]
    show lookupEntry key (moveToEnd key c) = some (cachedAllowed, cachedAt)
    rw [moveToEnd, hl]
    rw [lookupEntry_append_of_not_mem_left key _ _ (removeKey_not_mem_of_nodup key c hnd)]
    rw [lookupEntry, if_pos rfl]
  · intro hl hcap
    rw [checkPermission, hl, cacheInsert, if_pos hcap]

/-- C2 (counterexample): fill the cache to its capacity of 10000 with the
distinct keys `keyA 0 … keyA 9999` (in that insertion order), hit the
oldest-inserted entry `keyA 0`, then call through on the fresh key
`keyA 10000`.  Both `keyA 0` and `keyA 1` are present just before the insert,
but the insert evicts `keyA 1` while the older-inserted `keyA 0` survives: the
hit changed the eviction order, refuting the claim that only insertion order
determines which entry is evicted at capacity. -/
theorem permissionCache_fifo_counterexample :
    keyA 0 ∈ cacheKeys ((checkPermission defaultGCConfig 0 true (keyA 0)
      filledCache).2) ∧
    keyA 1 ∈ cacheKeys ((checkPermission defaultGCConfig 0 true (keyA 0)
      filledCache).2) ∧
    keyA 0 ∈ cacheKeys ((checkPermission defaultGCConfig 0 true (keyA 10000)
      ((checkPermission defaultGCConfig 0 true (keyA 0) filledCache).2)).2) ∧
    keyA 1 ∉ cacheKeys ((checkPermission defaultGCConfig 0 true (keyA 10000)
      ((checkPermission defaultGCConfig 0 true (keyA 0) filledCache).2)).2) := by
  have hins : cacheKeys ((checkPermission defaultGCConfig 0 true (keyA 10000)
      ((checkPermission defaultGCConfig 0 true (keyA 0) filledCache).2)).2)
      = cacheKeys insertStateList := by
    conv_lhs => rw [hitState_eq, insertState_eq]
  refine ⟨?_, ?_, ?_, ?_⟩
  · conv_lhs => rw [hitState_eq]
    rw [hitStateList_keys]
    exact List.mem_append.mpr (Or.inr (by simp))
  · conv_lhs => rw [hitState_eq]
    rw [hitStateList_keys]
    refine List.mem_append.mpr (Or.inl (List.mem_map.mpr ⟨0, ?_, rfl⟩))
    simp
  · rw [hins, insertStateList, cacheKeys_append, cacheKeys_append]
    exact List.mem_append.mpr (Or.inl (List.mem_append.mpr (Or.inr (by simp [cacheKeys]))))
  · rw [hins, insertStateList, cacheKeys_append, cacheKeys_append]
    intro hmem
    rcases List.mem_append.mp hmem with h1 | h1
    · rcases List.mem_append.mp h1 with h2 | h2
      · rw [cacheKeys, List.map_map] at h2
        obtain ⟨i, hi, hki⟩ := List.mem_map.mp h2
        have := keyA_injective hki
        omega
      · have : keyA 1 = keyA 0 := by simpa [cacheKeys] using h2
        have := keyA_injective this
        omega
    · have : keyA 1 = keyA 10000 := by simpa [cacheKeys] using h1
      have := keyA_injective this
      omega

/-- Witness for `permissionCache_lru`: a hit on a two-entry cache moves the
entry to the end keeping its timestamp, and an insert at capacity 2 evicts the
front entry. -/
theorem permissionCache_lru_witness :
    checkPermission defaultGCConfig 10 false kAllowed cacheT0
      = (true, [(kDenied, false, 0), (kAllowed, true, 0)]) ∧
    lookupEntry kAllowed (checkPermission defaultGCConfig 10 false kAllowed cacheT0).2
      = some (true, 0) ∧
    checkPermission ⟨30, 5, 2⟩ 0 true "k3" [("k1", true, 0), ("k2", false, 0)]
      = (true, [("k2", false, 0), ("k3", true, 0)]) := by
  have h1 := (permissionCache_lru defaultGCConfig 10 false kAllowed cacheT0).1
    true 0 rfl (by decide)
  have h2 := (permissionCache_lru ⟨30, 5, 2⟩ 0 true "k3"
    [("k1", true, 0), ("k2", false, 0)]).2 rfl (by decide)
  refine ⟨h1.1.trans rfl, (h1.2 (by decide)).trans rfl, h2.trans rfl⟩

/-- C9: with the default TTLs (approved 30s, denied 5s), an entry cached as
allowed is servable from the cache strictly longer than one cached as denied:
every age at which the denied entry is still served also serves the allowed
entry, and at 10 seconds after insertion the allowed entry is still served
from cache (the call returns the cached `true` even though the API oracle
would return `false`) while the denied entry is expired (the call goes through
to the API). -/
theorem cache_ttl_asymmetry :
    (∀ t : Int, servedFromCache defaultGCConfig t kDenied cacheT0 = true →
        servedFromCache defaultGCConfig t kAllowed cacheT0 = true) ∧
    servedFromCache defaultGCConfig 10 kAllowed cacheT0 = true ∧
    servedFromCache defaultGCConfig 10 kDenied cacheT0 = false ∧
    (checkPermission defaultGCConfig 10 false kAllowed cacheT0).1 = true ∧
    (checkPermission defaultGCConfig 10 true kDenied cacheT0).1 = true := by
  have hA : lookupEntry kAllowed cacheT0 = some (true, 0) := rfl
  have hD : lookupEntry kDenied cacheT0 = some (false, 0) := rfl
  refine ⟨?_, by decide, by decide, by decide, by decide⟩
  intro t h
  rw [servedFromCache_some _ _ _ _ _ _ hD, decide_eq_true_eq] at h
  rw [servedFromCache_some _ _ _ _ _ _ hA, decide_eq_true_eq]
  simp only [if_true, if_false, Bool.false_eq_true] at h ⊢
  have hd5 : defaultGCConfig.cacheTtlDenied = 5 := rfl
  have ha30 : defaultGCConfig.cacheTtlApproved = 30 := rfl
  rw [hd5] at h
  rw [ha30]
  omega

/-- Witness for `cache_ttl_asymmetry`: at age 3 the denied entry is still
served, hence so is the allowed one. -/
theorem cache_ttl_asymmetry_witness :
    servedFromCache defaultGCConfig 3 kAllowed cacheT0 = true :=
  cache_ttl_asymmetry.1 3 (by decide)

end GovernanceClient

namespace EventClient

/-- Folding bounded appends that stay within capacity is a plain append. -/
theorem foldl_dequeAppend_no_overflow {E : Type} (cap : Nat) :
    ∀ (l st : List E), st.length + l.length ≤ cap →
      l.foldl (dequeAppend cap) st = st ++ l
  | [], st, _ => by simp
  | e :: es, st, h => by
    simp only [List.length_cons] at h
    have h0 : ¬ cap = 0 := by omega
    have h1 : st.length < cap := by omega
    rw [List.foldl_cons, dequeAppend, if_neg h0, if_pos h1,
      foldl_dequeAppend_no_overflow cap es (st ++ [e])
        (by simp only [List.length_append, List.length_singleton]; omega)]
    simp

/-- C4: the event buffer never exceeds its capacity — appending to a buffer
within capacity stays within capacity; appending to a full buffer evicts
exactly the oldest (front) entry; and publishing e1..e5 into an empty buffer
of capacity 3 leaves exactly [e3, e4, e5]. -/
theorem buffer_capacity_fifo :
    (∀ (E : Type) (cap : Nat) (buf : List E) (e : E),
        buf.length ≤ cap → (dequeAppend cap buf e).length ≤ cap) ∧
    (∀ (E : Type) (cap : Nat) (buf : List E) (e : E),
        buf.length = cap → 0 < cap → dequeAppend cap buf e = buf.tail ++ [e]) ∧
    publishRun 3 ([] : List Nat) [1, 2, 3, 4, 5] = [3, 4, 5] := by
  refine ⟨?_, ?_, rfl⟩
  · intro E cap buf e h
    rw [dequeAppend]
    split_ifs with h0 h1
    · exact h
    · simp only [List.length_append, List.length_singleton]
      omega
    · simp only [List.length_append, List.length_singleton, List.length_tail]
      omega
  · intro E cap buf e h h0
    rw [dequeAppend, if_neg (by omega), if_neg (by omega)]

/-- Witness for `buffer_capacity_fifo`: concrete appends at capacity 3. -/
theorem buffer_capacity_fifo_witness :
    (dequeAppend 3 [1, 2] (7 : Nat)).length ≤ 3 ∧
    dequeAppend 3 [4, 5, 6] (7 : Nat) = [5, 6, 7] :=
  ⟨buffer_capacity_fifo.1 Nat 3 [1, 2] 7 (by decide),
   (buffer_capacity_fifo.2.1 Nat 3 [4, 5, 6] 7 rfl (by decide)).trans rfl⟩

/-- C8: when the batched write of a flush fails, every drained event is pushed
back into the buffer unchanged (the requeue is capped at the buffer capacity,
which the drained batch never exceeds since the buffer is itself bounded), the
failure is reflected only in the failed-count metric, and no exception reaches
the publisher (`flushBuffer` is total). -/
theorem flush_failure_requeue (E : Type) (cap : Nat) (buf : List E)
    (m : EventMetricsCounters) (h : buf.length ≤ cap) :
    flushBuffer cap false buf m
      = (buf, ⟨m.publishedCount, m.failedCount + buf.length⟩) := by
  cases buf with
  | nil => simp [flushBuffer]
  | cons b bs =>
    rw [flushBuffer, if_neg (by simp), if_neg (by simp)]
    rw [List.take_of_length_le h,
      foldl_dequeAppend_no_overflow cap (b :: bs) [] (by simpa using h)]
    simp

/-- Witness for `flush_failure_requeue`: a failed flush of two events keeps
both events and counts two failures. -/
theorem flush_failure_requeue_witness :
    flushBuffer 3 false [10, 20] (⟨0, 0⟩ : EventMetricsCounters)
      = ([10, 20], ⟨0, 2⟩) :=
  (flush_failure_requeue Nat 3 [10, 20] ⟨0, 0⟩ (by decide)).trans rfl

end EventClient

namespace PolicySync

/-- C6: a sync whose HTTP fetch returns a status other than 200/404, or
raises, leaves the policy store, the last-sync time and the sync count
unchanged and only increments the error counter; a 404 response is treated as
a valid empty result — the store is replaced by the empty set, the sync time
is updated and no error is counted. -/
theorem sync_failure_preserves_store (now : Int) (st : SyncState) (status : Nat)
    (ps : List PolicyRule) :
    (status ≠ 200 → status ≠ 404 →
      syncPolicies now st (FetchOutcome.httpResponse status ps)
        = { st with syncErrors := st.syncErrors + 1 }) ∧
    (syncPolicies now st FetchOutcome.failure
      = { st with syncErrors := st.syncErrors + 1 }) ∧
    (syncPolicies now st (FetchOutcome.httpResponse 404 ps)
      = { st with store := [], lastSync := some now }) := by
  refine ⟨?_, rfl, ?_⟩
  · intro h200 h404
    simp only [syncPolicies, if_neg h200, if_neg h404]
  · simp [syncPolicies, loadPolicies]

/-- Witness for `sync_failure_preserves_store`: a 500 response leaves the
one-policy store untouched and bumps the error count. -/
theorem sync_failure_preserves_store_witness :
    syncPolicies 100 ⟨[("d1", Agion.PolicyEngine.ruleDenyHard)], some 50, 3, 1⟩
        (FetchOutcome.httpResponse 500 [])
      = ⟨[("d1", Agion.PolicyEngine.ruleDenyHard)], some 50, 3, 2⟩ :=
  (sync_failure_preserves_store 100
    ⟨[("d1", Agion.PolicyEngine.ruleDenyHard)], some 50, 3, 1⟩ 500 []).1
    (by decide) (by decide)

end PolicySync

namespace GovernanceClientRedis

/-- When no record carries the caller's correlation id, the wait ends with no
payload (timeout). -/
theorem waitForResponse_none_of_no_match (cid : String) :
    ∀ records : List RpcRecord,
      (∀ r ∈ records, r.payload.correlationId ≠ cid) →
      (waitForResponse cid records).2 = none
  | [], _ => rfl
  | r :: rs, h => by
    rw [waitForResponse, if_neg (h r (List.mem_cons_self r rs))]
    exact waitForResponse_none_of_no_match cid rs
      (fun x hx => h x (List.mem_cons_of_mem r hx))

/-- Per-batch characterization of the processing loop: the acknowledged ids
are exactly the message ids of the examined prefix — every successfully
decoded record up to and including the first match, and no record beyond a
mid-batch match or a decode failure — and the returned payload is the first
decoded match. -/
theorem processBatch_eq (cid : String) :
    ∀ b : List RawRecord,
      processBatch cid b
        = ((examinedPrefix cid b).map (·.messageId), firstParsedMatch cid b)
  | [] => rfl
  | r :: rs => by
    cases hp : r.payloadParse with
    | none => simp [processBatch, examinedPrefix, firstParsedMatch, hp]
    | some p =>
      by_cases h : p.correlationId = cid
      · simp [processBatch, examinedPrefix, firstParsedMatch, hp, h]
      · simp [processBatch, examinedPrefix, firstParsedMatch, hp, h,
          processBatch_eq cid rs]

/-- A payload returned from one batch carries the caller's correlation id. -/
theorem firstParsedMatch_correlates (cid : String) :
    ∀ (b : List RawRecord) (p : GovPayload),
      firstParsedMatch cid b = some p → p.correlationId = cid
  | [], p, h => by simp [firstParsedMatch] at h
  | r :: rs, p, h => by
    rw [firstParsedMatch] at h
    cases hp : r.payloadParse with
    | none => rw [hp] at h; exact absurd h (by simp)
    | some q =>
      rw [hp] at h
      simp only at h
      split at h
      · rename_i hq
        obtain rfl : q = p := by injection h
        exact hq
      · exact firstParsedMatch_correlates cid rs p h

/-- Any payload the batch-level wait returns carries the caller's own
correlation id. -/
theorem waitForResponseBatches_correlates (cid : String) :
    ∀ (batches : List (List RawRecord)) (p : GovPayload),
      (waitForResponseBatches cid batches).2 = some p → p.correlationId = cid
  | [], p, h => by simp [waitForResponseBatches] at h
  | b :: rest, p, h => by
    rw [waitForResponseBatches] at h
    cases hb : (processBatch cid b).2 with
    | some q =>
      rw [hb] at h
      have hq : q = p := by simpa using h
      subst hq
      have := processBatch_eq cid b
      rw [this] at hb
      exact firstParsedMatch_correlates cid b q (by simpa using hb)
    | none =>
      rw [hb] at h
      exact waitForResponseBatches_correlates cid rest p (by simpa using h)

/-- The examined prefix of a batch is part of the batch. -/
theorem examinedPrefix_subset (cid : String) :
    ∀ (b : List RawRecord) (r : RawRecord),
      r ∈ examinedPrefix cid b → r ∈ b
  | [], r, h => by simp [examinedPrefix] at h
  | q :: qs, r, h => by
    rw [examinedPrefix] at h
    cases hp : q.payloadParse with
    | none => rw [hp] at h; exact absurd h (by simp)
    | some p =>
      rw [hp] at h
      simp only at h
      split at h
      · have : r = q := by simpa using h
        exact this ▸ List.mem_cons_self q qs
      · rcases List.mem_cons.mp h with h1 | h1
        · exact h1 ▸ List.mem_cons_self q qs
        · exact List.mem_cons_of_mem q (examinedPrefix_subset cid qs r h1)

/-- Every acknowledged id belongs to a record that was read. -/
theorem waitForResponseBatches_acked_read (cid : String) :
    ∀ (batches : List (List RawRecord)) (id : String),
      id ∈ (waitForResponseBatches cid batches).1 →
      id ∈ (recordsRead cid batches).map (·.messageId)
  | [], id, h => by simp [waitForResponseBatches] at h
  | b :: rest, id, h => by
    cases hb : (processBatch cid b).2 with
    | some q =>
      rw [waitForResponseBatches] at h
      rw [hb] at h
      simp only at h
      rw [recordsRead, if_pos (by rw [hb]; rfl)]
      have hacks : id ∈ (processBatch cid b).1 := h
      rw [processBatch_eq cid b] at hacks
      obtain ⟨r, hr, hrid⟩ := List.mem_map.mp hacks
      exact List.mem_map.mpr ⟨r, examinedPrefix_subset cid b r hr, hrid⟩
    | none =>
      rw [waitForResponseBatches] at h
      rw [hb] at h
      simp only at h
      rw [recordsRead, if_neg (by rw [hb]; simp)]
      rw [List.map_append]
      rcases List.mem_append.mp h with h1 | h1
      · rw [processBatch_eq cid b] at h1
        obtain ⟨r, hr, hrid⟩ := List.mem_map.mp h1
        exact List.mem_append.mpr
          (Or.inl (List.mem_map.mpr ⟨r, examinedPrefix_subset cid b r hr, hrid⟩))
      · exact List.mem_append.mpr
          (Or.inr (waitForResponseBatches_acked_read cid rest id h1))

/-- C5 (amended): per batch, the loop acknowledges exactly the successfully
decoded records up to and including the first match — unmatched records
scanned before the match are acknowledged regardless of their correlation
id — while records read in the same batch after a mid-batch match, or from a
decode failure on, are left unacknowledged; every acknowledged record was
read; any payload the wait returns carries the caller's own correlation id
(on timeout there is no payload); hence two calls with distinct correlation
ids over the same batches each return only the response matching their own
request. -/
theorem rpc_ack_correlation :
    (∀ (cid : String) (b : List RawRecord),
        processBatch cid b
          = ((examinedPrefix cid b).map (·.messageId), firstParsedMatch cid b)) ∧
    (∀ (cid : String) (batches : List (List RawRecord)) (p : GovPayload),
        (waitForResponseBatches cid batches).2 = some p → p.correlationId = cid) ∧
    (∀ (cid : String) (batches : List (List RawRecord)) (id : String),
        id ∈ (waitForResponseBatches cid batches).1 →
        id ∈ (recordsRead cid batches).map (·.messageId)) ∧
    (∀ (cid1 cid2 : String) (batches : List (List RawRecord)) (p1 p2 : GovPayload),
        cid1 ≠ cid2 →
        (waitForResponseBatches cid1 batches).2 = some p1 →
        (waitForResponseBatches cid2 batches).2 = some p2 →
        p1.correlationId = cid1 ∧ p2.correlationId = cid2 ∧
          p1.correlationId ≠ p2.correlationId) := by
  refine ⟨processBatch_eq, waitForResponseBatches_correlates,
    waitForResponseBatches_acked_read, ?_⟩
  intro cid1 cid2 batches p1 p2 hne h1 h2
  have e1 := waitForResponseBatches_correlates cid1 batches p1 h1
  have e2 := waitForResponseBatches_correlates cid2 batches p2 h2
  exact ⟨e1, e2, by rw [e1, e2]; exact hne⟩

/-- C5 (counterexample): one `xreadgroup` batch delivers two records; the
first matches the caller's correlation id `c1`, so the loop acknowledges it
and returns at once.  The second record `m2` was read — it arrived in the
same batch, so it entered the consumer group's pending list — but it is never
acknowledged, refuting the claim that every record read from the response
stream is acknowledged regardless of correlation-id match. -/
theorem rpc_every_read_acked_counterexample :
    waitForResponseBatches "c1"
        [[⟨"m1", some ⟨"c1", "ALLOW", "ok", "msg"⟩⟩,
          ⟨"m2", some ⟨"c2", "ALLOW", "ok", "msg"⟩⟩]]
      = (["m1"], some ⟨"c1", "ALLOW", "ok", "msg"⟩) ∧
    "m2" ∈ (recordsRead "c1"
        [[⟨"m1", some ⟨"c1", "ALLOW", "ok", "msg"⟩⟩,
          ⟨"m2", some ⟨"c2", "ALLOW", "ok", "msg"⟩⟩]]).map (·.messageId) ∧
    "m2" ∉ (waitForResponseBatches "c1"
        [[⟨"m1", some ⟨"c1", "ALLOW", "ok", "msg"⟩⟩,
          ⟨"m2", some ⟨"c2", "ALLOW", "ok", "msg"⟩⟩]]).1 := by
  refine ⟨rfl, by decide, by decide⟩

/-- Witness for `rpc_ack_correlation`: a batch holding responses for two
distinct correlation ids; each call returns its own payload, and the acked id
of the first call is among the read records. -/
theorem rpc_ack_correlation_witness :
    (⟨"c1", "ALLOW", "ok", "msg"⟩ : GovPayload).correlationId = "c1" ∧
    (⟨"c2", "DENY", "ok", "msg"⟩ : GovPayload).correlationId = "c2" ∧
    "m1" ∈ (recordsRead "c1"
        [[⟨"m1", some ⟨"c1", "ALLOW", "ok", "msg"⟩⟩,
          ⟨"m2", some ⟨"c2", "DENY", "ok", "msg"⟩⟩]]).map (·.messageId) := by
  have h4 := rpc_ack_correlation.2.2.2 "c1" "c2"
    [[⟨"m1", some ⟨"c1", "ALLOW", "ok", "msg"⟩⟩,
      ⟨"m2", some ⟨"c2", "DENY", "ok", "msg"⟩⟩]]
    ⟨"c1", "ALLOW", "ok", "msg"⟩ ⟨"c2", "DENY", "ok", "msg"⟩
    (by decide) rfl rfl
  refine ⟨h4.1, h4.2.1, ?_⟩
  exact rpc_ack_correlation.2.2.1 "c1"
    [[⟨"m1", some ⟨"c1", "ALLOW", "ok", "msg"⟩⟩,
      ⟨"m2", some ⟨"c2", "DENY", "ok", "msg"⟩⟩]]
    "m1" (by decide)

/-- C3: when the wait times out with no matching response, or the transport
fails, `check_permission` returns decision DENY and `validate_result` returns
decision FLAG_FOR_REVIEW; in every case (success, timeout, connection error,
other exception) the returned result carries the measured latency and the
functions are total — no exception reaches the caller. -/
theorem rpc_failsafe_defaults :
    (∀ (elapsed : Int) (cid : String) (records : List RpcRecord),
        (∀ r ∈ records, r.payload.correlationId ≠ cid) →
        (checkPermission elapsed cid (RpcTransport.ok records)).decision = "DENY" ∧
        (validateResult elapsed cid (RpcTransport.ok records)).decision
          = "FLAG_FOR_REVIEW") ∧
    (∀ (elapsed : Int) (cid m : String),
        (checkPermission elapsed cid (RpcTransport.connError m)).decision = "DENY" ∧
        (checkPermission elapsed cid (RpcTransport.exn m)).decision = "DENY" ∧
        (validateResult elapsed cid (RpcTransport.connError m)).decision
          = "FLAG_FOR_REVIEW" ∧
        (validateResult elapsed cid (RpcTransport.exn m)).decision
          = "FLAG_FOR_REVIEW") ∧
    (∀ (elapsed : Int) (cid : String) (t : RpcTransport),
        (checkPermission elapsed cid t).latencyMs = elapsed ∧
        (validateResult elapsed cid t).latencyMs = elapsed) := by
  refine ⟨?_, ?_, ?_⟩
  · intro elapsed cid records h
    have hw := waitForResponse_none_of_no_match cid records h
    constructor
    · simp only [checkPermission, hw]
    · simp only [validateResult, hw]
  · intro elapsed cid m
    exact ⟨rfl, rfl, rfl, rfl⟩
  · intro elapsed cid t
    cases t with
    | ok records =>
      cases hw : (waitForResponse cid records).2 with
      | none =>
        exact ⟨by simp only [checkPermission, hw], by simp only [validateResult, hw]⟩
      | some p =>
        exact ⟨by simp only [checkPermission, hw], by simp only [validateResult, hw]⟩
    | connError m => exact ⟨rfl, rfl⟩
    | exn m => exact ⟨rfl, rfl⟩

/-- Witness for `rpc_failsafe_defaults`: a 500ms call that never sees a
response returns DENY / FLAG_FOR_REVIEW with the measured latency. -/
theorem rpc_failsafe_defaults_witness :
    (checkPermission 500 "cid-1" (RpcTransport.ok [])).decision = "DENY" ∧
    (validateResult 500 "cid-1" (RpcTransport.ok [])).decision = "FLAG_FOR_REVIEW" ∧
    (checkPermission 500 "cid-1" (RpcTransport.connError "down")).latencyMs = 500 := by
  refine ⟨?_, ?_, ?_⟩
  · exact (rpc_failsafe_defaults.1 500 "cid-1" [] (by simp)).1
  · exact (rpc_failsafe_defaults.1 500 "cid-1" [] (by simp)).2
  · exact (rpc_failsafe_defaults.2.2 500 "cid-1" (RpcTransport.connError "down")).1

end GovernanceClientRedis

end Agion
